import Mathlib

/-!
Verification of the `dbh` Go repository (query/insert helpers over `database/sql`).

The definitions below are a shallow embedding of `src/helper.go` and
`src/config.go`:

* `markInsertValueSql` embeds `config.MarkInsertValueSql` (the two nested
  string-builder loops are rendered as `List.foldl` over `List.range`);
* `getCachedSql` / `setCachedSql` / `getAndSetCachedSql` embed the SQL cache
  (a Go map, modelled as an association list with newest-entry-first lookup;
  Go map indexing yields the zero value `""` on a miss).  The supplier of
  `getAndSetCachedSql` is modelled as `Nat → String`, applied to the
  invocation index, so that the number and order of supplier invocations
  performed by the source is visible; the third component of the result is
  the number of supplier invocations.
* `bulkInsertContext` embeds `BulkInsertContext`.  The database handle is
  modelled as an oracle `Call → Resp` mapping each issued call
  (prepare / statement-exec / ad hoc exec) to either a result (with an
  optional affected-row count, `none` when the driver cannot report one) or
  an error.  The function additionally returns the list of calls it issued,
  in order, and the final cache state.  The loop recurses on an explicit
  `fuel` argument that is initialised to the row-list length; every
  iteration consumes at least one row, so the fuel-exhaustion branch is
  unreachable from `bulkInsertContext`.
* `insertOne` embeds `Insert` / `InsertContext`, `scanList` embeds
  `ScanList` (a cursor of `n` successfully scannable rows is the list of the
  `n` values scanned out of it).
-/

namespace Dbh

/-- Spec-side rendition of a comma-separated list: elements joined by `","`,
no leading or trailing separator. -/
def sepComma : List String → String
  | [] => ""
  | [s] => s
  | s :: s' :: rest => s ++ "," ++ sepComma (s' :: rest)

/-- Embeds Go `strings.Join(elems, sep)`. -/
def stringsJoin (sep : String) : List String → String
  | [] => ""
  | s :: rest => rest.foldl (fun acc x => acc ++ sep ++ x) s

/-- Embeds `MysqlMark` from `src/config.go`. -/
def MysqlMark (_i _col _row : Nat) : String := "?"

/-- Embeds `PostgresMark` from `src/config.go`. -/
def PostgresMark (i _col _row : Nat) : String := "$" ++ toString (i + 1)

/-- Embeds `SqlserverMark` from `src/config.go`. -/
def SqlserverMark (i _col _row : Nat) : String := "@p" ++ toString i

/-- The inner column loop of `config.MarkInsertValueSql`: starting from the
builder contents `b`, append the `colLen` marks of row `i`, comma-separated. -/
def markRowFold (mark : Nat → Nat → Nat → String) (colLen i : Nat) (b : String) : String :=
  (List.range colLen).foldl
    (fun acc j => (if 0 < j then acc ++ "," else acc) ++ mark (i * colLen + j) j i) b

/-- Embeds `config.MarkInsertValueSql` from `src/config.go` (the `b.Grow`
capacity pre-sizing has no observable effect on the produced string and is
omitted). -/
def markInsertValueSql (mark : Nat → Nat → Nat → String) (colLen rowLen : Nat) : String :=
  (List.range rowLen).foldl
    (fun b i =>
      let b1 := if 0 < i then b ++ "," else b
      let b2 := markRowFold mark colLen i (b1 ++ "(")
      let b3 := if colLen = 0 then b2 ++ "null" else b2
      b3 ++ ")") ""

/-- The SQL cache of a `config`: a Go `map[string]string`, modelled as an
association list where `setCachedSql` prepends and `List.lookup` finds the
newest entry. -/
abbrev Cache := List (String × String)

/-- Embeds `config.GetCachedSql`: Go map indexing returns the zero value
`""` when the key is absent. -/
def getCachedSql (cache : Cache) (tableName : String) : String :=
  (cache.lookup tableName).getD ""

/-- Embeds `config.SetCachedSql`. -/
def setCachedSql (cache : Cache) (tableName sql : String) : Cache :=
  (tableName, sql) :: cache

/-- Embeds `config.GetAndSetCachedSql`.  On a hit the cached value is
returned and the supplier is not invoked.  On a miss the source runs
`sql := f()` and then `r.cache[tableName] = f()` — two distinct supplier
invocations: the first result is returned, the second is stored.  The last
component counts supplier invocations. -/
def getAndSetCachedSql (cache : Cache) (tableName : String) (f : Nat → String) :
    String × Cache × Nat :=
  match cache.lookup tableName with
  | some v => (v, cache, 0)
  | none =>
    let sql := f 0
    (sql, (tableName, f 1) :: cache, 2)

/-- The non-cache part of `config` from `src/config.go`. -/
structure Cfg where
  PrintSql : Bool
  BulkInsertStmtThreshold : Int
  Mark : Nat → Nat → Nat → String

/-- A value implementing `TableInfoProvider` from `src/helper.go`:
`Args()` is modelled as a list of opaque argument tokens. -/
structure Row where
  tableName : String
  columns : List String
  config : Cfg
  args : List Nat

/-- One call issued to the database handle (`DbInterface`):
`PrepareContext`, `stmt.ExecContext`, or `ExecContext`. -/
inductive Call where
  | prepare (sql : String)
  | execStmt (args : List Nat)
  | exec (sql : String) (args : List Nat)
deriving DecidableEq, Repr

/-- The handle's response to one call: success with an optional
affected-row count (`none` models a driver that cannot report one, in which
case `RowsAffected` yields `0` and an error that the source discards), or a
driver error. -/
inductive Resp where
  | ok (rowsAffected : Option Int)
  | fail (code : Nat)
deriving DecidableEq, Repr

/-- The database handle, as observed through `DbInterface`: a deterministic
map from each issued call to its response. -/
abbrev Oracle := Call → Resp

/-- The observable outcome of `BulkInsertContext`: the calls issued to the
handle in order, the final cache state of the config, and the Go return
values `(int64, error)` as `total` and `err`. -/
structure BIResult where
  trace : List Call
  cache : Cache
  total : Int
  err : Option Nat
deriving DecidableEq, Repr

/-- The `bulkSize` normalisation at the top of `BulkInsertContext`:
`if bulkSize <= 0 { bulkSize = 1 }`. -/
def normBulkSize (bulkSize : Int) : Nat :=
  if bulkSize ≤ 0 then 1 else bulkSize.toNat

/-- The `fmt.Sprintf("insert into %s (%s) values %s", tableName,
strings.Join(cols, ","), valuePart)` statement text of `BulkInsertContext`. -/
def insertSql (tableName : String) (cols : List String) (valuePart : String) : String :=
  "insert into " ++ tableName ++ " (" ++ stringsJoin "," cols ++ ") values " ++ valuePart

/-- Extracts the parameter list of a call (empty for a prepare). -/
def callArgs : Call → List Nat
  | .prepare _ => []
  | .execStmt a => a
  | .exec _ a => a

/-- Whether a call is a statement execution (as opposed to a prepare). -/
def callIsExec : Call → Bool
  | .prepare _ => false
  | .execStmt _ => true
  | .exec _ _ => true

/-- One iteration body of the batch loop of `BulkInsertContext`, up to the
point where the handle is invoked: with `useStmt` the batch goes through
`stmt.ExecContext(ctx, vals...)` (the prepared statement, with the slice's
flattened `Args()`) and the cache is untouched; without it the ad hoc SQL
is rendered — through `GetAndSetCachedSql` keyed `<table>_insert_one` for a
single-row slice, freshly via `MarkInsertValueSql` otherwise — and goes
through `ExecContext(ctx, sqlString, vals...)`.  Returns the issued call
and the resulting cache. -/
def execBatch (mark : Nat → Nat → Nat → String) (tableName : String)
    (cols : List String) (useStmt : Bool) (batch : List Row) (cache : Cache) :
    Call × Cache :=
  let vals := (batch.map Row.args).flatten
  if useStmt then
    (Call.execStmt vals, cache)
  else
    let sc :=
      if batch.length = 1 then
        let g := getAndSetCachedSql cache (tableName ++ "_insert_one")
          (fun _ => insertSql tableName cols (markInsertValueSql mark cols.length 1))
        (g.1, g.2.1)
      else
        (insertSql tableName cols (markInsertValueSql mark cols.length batch.length), cache)
    (Call.exec sc.1 vals, sc.2)

/-- The batch loop of `BulkInsertContext` (`for i := 0; i < len(list); i += bulkSize`).
`bpred + 1` is the normalised `bulkSize`.  Each iteration takes the slice
`list[i:end]` (`end` clamped to `len(list)`, clearing `useStmt` when the
slice is short), issues the slice's call via `execBatch`, and on success
adds the reported affected-row count (`RowsAffected` defaulting to `0`) to
the running total; any execution error aborts with the Go return values
`(0, err)`.  `fuel` starts at the row-list length and strictly bounds the
number of iterations, so the `fuel = 0` branch with rows remaining is
unreachable. -/
def bulkLoopF (db : Oracle) (mark : Nat → Nat → Nat → String) (tableName : String)
    (cols : List String) (bpred : Nat) :
    Nat → Bool → List Row → Int → Cache → List Call → BIResult
  | _, _, [], total, cache, trace => ⟨trace, cache, total, none⟩
  | 0, _, _ :: _, total, cache, trace => ⟨trace, cache, total, none⟩
  | fuel + 1, useStmt, r :: rs, total, cache, trace =>
    let useStmt1 := if (r :: rs).length < bpred + 1 then false else useStmt
    let cc := execBatch mark tableName cols useStmt1 ((r :: rs).take (bpred + 1)) cache
    match db cc.1 with
    | .fail e => ⟨trace ++ [cc.1], cc.2, 0, some e⟩
    | .ok ra =>
      bulkLoopF db mark tableName cols bpred fuel useStmt1 (rs.drop bpred)
        (total + ra.getD 0) cc.2 (trace ++ [cc.1])

/-- Embeds `BulkInsertContext` from `src/helper.go`: empty list returns
`(0, nil)` with no handle interaction; otherwise the table name, columns and
config are read from the first element, a prepared statement for one full
batch is created when `len(list)/bulkSize >= 2` (a prepare error returning
`(0, err)`), and the batch loop runs. -/
def bulkInsertContext (db : Oracle) (bulkSize : Int) (list : List Row) (cache : Cache) :
    BIResult :=
  match list with
  | [] => ⟨[], cache, 0, none⟩
  | r0 :: rest =>
    let bs := normBulkSize bulkSize
    let tableName := r0.tableName
    let cols := r0.columns
    let cfg := r0.config
    if 2 ≤ (r0 :: rest).length / bs then
      let prepareSql := insertSql tableName cols (markInsertValueSql cfg.Mark cols.length bs)
      let c := Call.prepare prepareSql
      match db c with
      | .fail e => ⟨[c], cache, 0, some e⟩
      | .ok _ =>
        bulkLoopF db cfg.Mark tableName cols (bs - 1) (r0 :: rest).length true
          (r0 :: rest) 0 cache [c]
    else
      bulkLoopF db cfg.Mark tableName cols (bs - 1) (r0 :: rest).length false
        (r0 :: rest) 0 cache []

/-- Embeds `Insert` / `InsertContext` from `src/helper.go`:
`return BulkInsertContext(db, ctx, 1, t)`. -/
def insertOne (db : Oracle) (t : Row) (cache : Cache) : BIResult :=
  bulkInsertContext db 1 [t] cache

/-- The loop of `ScanList`: `i` counts scanned rows; row `i` overwrites
`(*list)[i]` when `i < len(*list)` and is appended otherwise. -/
def scanListGo {α : Type} (i : Nat) (toScan : List α) (list : List α) : List α :=
  match toScan with
  | [] => list
  | t :: rest =>
    if i < list.length then scanListGo (i + 1) rest (list.set i t)
    else scanListGo (i + 1) rest (list ++ [t])

/-- Embeds `ScanList` from `src/helper.go` on a cursor of successfully
scannable rows. -/
def scanList {α : Type} (toScan : List α) (list : List α) : List α :=
  scanListGo 0 toScan list

/-- The contiguous batch slices `list[i:end]` taken by the loop of
`BulkInsertContext` for batch size `bpred + 1`, with the same fuel scheme as
`bulkLoopF`. -/
def chunksF {α : Type} (bpred : Nat) : Nat → List α → List (List α)
  | _, [] => []
  | 0, _ :: _ => []
  | fuel + 1, a :: as => ((a :: as).take (bpred + 1)) :: chunksF bpred fuel (as.drop bpred)

/-- The batch slices of a list for batch size `bpred + 1`. -/
def chunks {α : Type} (bpred : Nat) (l : List α) : List (List α) :=
  chunksF bpred l.length l

/-- A config with the source defaults: `PrintSql = false`,
`BulkInsertStmtThreshold = 0` (documented as "prepared statement is
disabled"), constant `?` marks. -/
def cfg0 : Cfg := ⟨false, 0, MysqlMark⟩

/-- The same default config except for an arbitrary threshold value. -/
def cfgTh (th : Int) : Cfg := ⟨false, th, MysqlMark⟩

/-- A one-column `users` row with argument token 1. -/
def rowA : Row := ⟨"users", ["id"], cfg0, [1]⟩

/-- A one-column `users` row with argument token 2. -/
def rowB : Row := ⟨"users", ["id"], cfg0, [2]⟩

/-- A row with the same argument token as `rowB` but a different declared
table name and column list. -/
def rowB2 : Row := ⟨"other", ["nope"], cfg0, [2]⟩

/-- A row of `users` with threshold `th` in its config and argument token `n`. -/
def rowTh (th : Int) (n : Nat) : Row := ⟨"users", ["id"], cfgTh th, [n]⟩

/-- A handle on which the second statement execution fails with error
code 7 and the first reports 5 affected rows. -/
def oracleC1 : Oracle := fun c =>
  match c with
  | .execStmt [2] => .fail 7
  | .execStmt _ => .ok (some 5)
  | _ => .ok none

/-- A handle on which every call succeeds reporting one affected row. -/
def oracleOk1 : Oracle := fun _ => .ok (some 1)


theorem sepComma_append_left (b x : String) (xs : List String) :
    sepComma ((b ++ x) :: xs) = b ++ sepComma (x :: xs) := by
  cases xs with
  | nil => rfl
  | cons y ys => simp [sepComma, String.append_assoc]

theorem foldl_comma_sepComma (f : Nat → String) :
    ∀ (l : List Nat) (b : String),
      l.foldl (fun acc j => acc ++ "," ++ f j) b = sepComma (b :: l.map f) := by
  intro l
  induction l with
  | nil => intro b; rfl
  | cons x xs ih =>
    intro b
    show xs.foldl (fun acc j => acc ++ "," ++ f j) (b ++ "," ++ f x)
        = sepComma (b :: f x :: xs.map f)
    rw [ih (b ++ "," ++ f x)]
    rw [sepComma_append_left (b ++ ",") (f x) (xs.map f)]
    rw [show sepComma (b :: f x :: xs.map f)
          = b ++ "," ++ sepComma (f x :: xs.map f) from rfl]

theorem sepFoldFrom (g : Nat → String) :
    ∀ (n : Nat) (b : String),
      (List.range n).foldl (fun acc j => (if 0 < j then acc ++ "," else acc) ++ g j) b
        = b ++ sepComma ((List.range n).map g) := by
  intro n b
  cases n with
  | zero => simp [sepComma]
  | succ m =>
    rw [List.range_succ_eq_map]
    show (((List.range m).map Nat.succ).foldl
            (fun acc j => (if 0 < j then acc ++ "," else acc) ++ g j)
            ((if 0 < 0 then b ++ "," else b) ++ g 0))
        = b ++ sepComma ((0 :: (List.range m).map Nat.succ).map g)
    rw [if_neg (by omega)]
    rw [List.foldl_map]
    have hstep : (fun (acc : String) (j : Nat) =>
          (if 0 < Nat.succ j then acc ++ "," else acc) ++ g (Nat.succ j))
        = fun (acc : String) (j : Nat) => acc ++ "," ++ g (Nat.succ j) := by
      funext acc j
      rw [if_pos (Nat.succ_pos j)]
    rw [hstep]
    rw [foldl_comma_sepComma (fun j => g (Nat.succ j)) (List.range m) (b ++ g 0)]
    rw [sepComma_append_left b (g 0) ((List.range m).map fun j => g (Nat.succ j))]
    rw [List.map_cons, List.map_map]
    rfl

theorem markRowFold_eq (mark : Nat → Nat → Nat → String) (colLen i : Nat) (b : String) :
    markRowFold mark colLen i b
      = b ++ sepComma ((List.range colLen).map (fun j => mark (i * colLen + j) j i)) :=
  sepFoldFrom (fun j => mark (i * colLen + j) j i) colLen b

/-- **C3.** For all `columnCount ≥ 0`, `rowCount ≥ 0` and any placeholder
generator, `MarkInsertValueSql` returns exactly `rowCount` parenthesized
groups joined by commas with no leading or trailing separator, each group
holding exactly `columnCount` comma-separated marks generated in row-major
order with global index `row * columnCount + col`; a group's body is the
literal `null` when `columnCount = 0`, and `rowCount = 0` yields the empty
string. -/
theorem markInsertValueSql_renders_groups (mark : Nat → Nat → Nat → String)
    (colLen rowLen : Nat) :
    markInsertValueSql mark colLen rowLen
      = sepComma ((List.range rowLen).map (fun i =>
          "(" ++ (if colLen = 0 then "null"
                  else sepComma ((List.range colLen).map (fun j => mark (i * colLen + j) j i)))
              ++ ")"))
    ∧ markInsertValueSql mark colLen 0 = "" := by
  constructor
  · show (List.range rowLen).foldl
        (fun b i =>
          let b1 := if 0 < i then b ++ "," else b
          let b2 := markRowFold mark colLen i (b1 ++ "(")
          let b3 := if colLen = 0 then b2 ++ "null" else b2
          b3 ++ ")") ""
        = sepComma ((List.range rowLen).map (fun i =>
            "(" ++ (if colLen = 0 then "null"
                    else sepComma ((List.range colLen).map (fun j => mark (i * colLen + j) j i)))
                ++ ")"))
    have hstep : (fun (b : String) (i : Nat) =>
          let b1 := if 0 < i then b ++ "," else b
          let b2 := markRowFold mark colLen i (b1 ++ "(")
          let b3 := if colLen = 0 then b2 ++ "null" else b2
          b3 ++ ")")
        = fun (b : String) (i : Nat) =>
            (if 0 < i then b ++ "," else b)
              ++ ("(" ++ (if colLen = 0 then "null"
                    else sepComma ((List.range colLen).map (fun j => mark (i * colLen + j) j i)))
                  ++ ")") := by
      funext b i
      dsimp only
      rw [markRowFold_eq]
      by_cases hc : colLen = 0
      · subst hc
        simp [sepComma, String.append_assoc, String.append_empty]
      · simp only [if_neg hc]
        simp [String.append_assoc]
    rw [hstep]
    rw [sepFoldFrom]
    exact String.empty_append _
  · rfl


/-- **C4** (code bug). On a key miss, `GetAndSetCachedSql` invokes the
supplier twice — `sql := f()` then `r.cache[tableName] = f()` — returning
the first invocation's result while storing the second's, instead of
invoking it once and storing the returned result; on a hit it returns the
cached value without invoking the supplier.  Evaluated at the failing
input: an absent key with a supplier answering `"A"` on its first
invocation and `"B"` afterwards. -/
theorem getAndSetCachedSql_invokes_supplier_twice :
    getAndSetCachedSql [] "users_insert_one" (fun n => if n = 0 then "A" else "B")
      = ("A", [("users_insert_one", "B")], 2)
    ∧ getAndSetCachedSql [("users_insert_one", "V")] "users_insert_one"
        (fun n => if n = 0 then "A" else "B")
      = ("V", [("users_insert_one", "V")], 0) := by
  constructor <;> rfl

/-- **C8** (counterexample). `GetCachedSql` on a never-populated key does
not return an absent result distinguishable from every cached string: it
returns the Go map zero value `""`, which is exactly what it returns after
`SetCachedSql` stores the empty string under the key. -/
theorem getCachedSql_absent_equals_cached_empty :
    getCachedSql (setCachedSql [] "k" "") "k" = getCachedSql [] "k"
    ∧ getCachedSql [] "k" = "" := by
  constructor <;> rfl

/-- **C8** (amended). `GetCachedSql` on a never-populated key returns the
empty string (the Go map zero value), and after `SetCachedSql` stores `v`
under a key, every subsequent `GetCachedSql` of that key returns exactly
`v`. -/
theorem getCachedSql_set_then_get (cache : Cache) (k v : String) :
    getCachedSql (setCachedSql cache k v) k = v ∧ getCachedSql [] k = "" := by
  constructor
  · simp [getCachedSql, setCachedSql, List.lookup]
  · rfl

/-- **C6.** `BulkInsertContext` on an empty row list returns total `0` and
no error, issues no calls to the handle, and leaves the cache untouched,
for every batch size. -/
theorem bulkInsert_empty_noop (db : Oracle) (bulkSize : Int) (cache : Cache) :
    bulkInsertContext db bulkSize [] cache = ⟨[], cache, 0, none⟩ := rfl

/-- **C7.** `Insert`/`InsertContext` is `BulkInsertContext` specialised to
batch size 1 and a singleton list: same return values, same issued handle
calls, same cache effect. -/
theorem insertOne_is_bulkInsert_batchsize_one (db : Oracle) (t : Row) (cache : Cache) :
    insertOne db t cache = bulkInsertContext db 1 [t] cache := rfl

/-- **C2** (code bug, evaluated at the failing input). With
`BulkInsertStmtThreshold` at its default `0` — documented as disabling
prepared statements — and equally at `1000000` (with `N/batchSize = 2`
far below it), `BulkInsertContext` on five rows with batch size 2 still
issues a prepare call and runs both full batches through the prepared
statement, the short final batch falling back to ad hoc SQL: the decision
is `len(list)/bulkSize >= 2` and the threshold field is never consulted. -/
theorem bulkInsert_prepares_despite_threshold :
    (bulkInsertContext oracleOk1 2
        [rowTh 0 1, rowTh 0 2, rowTh 0 3, rowTh 0 4, rowTh 0 5] []).trace
      = [Call.prepare "insert into users (id) values (?),(?)",
         Call.execStmt [1, 2], Call.execStmt [3, 4],
         Call.exec "insert into users (id) values (?)" [5]]
    ∧ (bulkInsertContext oracleOk1 2
        [rowTh 1000000 1, rowTh 1000000 2, rowTh 1000000 3, rowTh 1000000 4, rowTh 1000000 5]
        []).trace
      = [Call.prepare "insert into users (id) values (?),(?)",
         Call.execStmt [1, 2], Call.execStmt [3, 4],
         Call.exec "insert into users (id) values (?)" [5]] := by
  constructor <;> rfl

theorem scanListGo_split {α : Type} :
    ∀ (toScan done pending : List α),
      scanListGo done.length toScan (done ++ pending)
        = done ++ toScan ++ pending.drop toScan.length := by
  intro toScan
  induction toScan with
  | nil => intro done pending; simp [scanListGo]
  | cons t rest ih =>
    intro done pending
    cases pending with
    | nil =>
      rw [scanListGo]
      rw [if_neg (by simp)]
      have h1 : (done ++ ([] : List α)) ++ [t] = (done ++ [t]) ++ [] := by simp
      have h2 : done.length + 1 = (done ++ [t]).length := by simp
      rw [h1, h2, ih (done ++ [t]) []]
      simp
    | cons p ps =>
      rw [scanListGo]
      rw [if_pos (by simp)]
      have h1 : (done ++ p :: ps).set done.length t = (done ++ [t]) ++ ps := by
        rw [List.set_eq_take_append_cons_drop]
        rw [if_pos (by simp)]
        rw [List.take_append_eq_append_take, List.take_length,
            Nat.sub_self, List.take_zero, List.append_nil]
        rw [List.drop_append_eq_append_drop]
        have : done.length + 1 - done.length = 1 := by omega
        rw [List.drop_eq_nil_of_le (by omega), this]
        simp
      have h2 : done.length + 1 = (done ++ [t]).length := by simp
      rw [h1, h2, ih (done ++ [t]) ps]
      simp [List.append_assoc]

/-- **C9.** `ScanList` on a cursor of `n` scannable rows fills the target
list in place: the first `n` positions are exactly the scanned rows (rows
at indices below the original length overwrite, the rest are appended),
positions beyond `n` keep their original elements, and the resulting
length is `max` of the original length and `n`. -/
theorem scanList_overwrites_then_appends {α : Type} (toScan list : List α) :
    scanList toScan list = toScan ++ list.drop toScan.length
    ∧ (scanList toScan list).length = max list.length toScan.length := by
  have h : scanList toScan list = toScan ++ list.drop toScan.length := by
    have := scanListGo_split toScan [] list
    simpa [scanList] using this
  refine ⟨h, ?_⟩
  rw [h]
  simp only [List.length_append, List.length_drop]
  omega

theorem bulkLoopF_err (db : Oracle) (mark : Nat → Nat → Nat → String) (tn : String)
    (cols : List String) (bpred : Nat) :
    ∀ (fuel : Nat) (u : Bool) (rem : List Row) (total : Int) (cache : Cache)
      (trace : List Call) (e : Nat),
      (bulkLoopF db mark tn cols bpred fuel u rem total cache trace).err = some e →
      (bulkLoopF db mark tn cols bpred fuel u rem total cache trace).total = 0
      ∧ ∃ t c, (bulkLoopF db mark tn cols bpred fuel u rem total cache trace).trace = t ++ [c]
          ∧ db c = .fail e := by
  intro fuel
  induction fuel with
  | zero =>
    intro u rem total cache trace e h
    cases rem with
    | nil => simp [bulkLoopF] at h
    | cons r rs => simp [bulkLoopF] at h
  | succ fuel ih =>
    intro u rem total cache trace e h
    cases rem with
    | nil => simp [bulkLoopF] at h
    | cons r rs =>
      simp only [bulkLoopF] at h ⊢
      cases hdb : db (execBatch mark tn cols
          (if (r :: rs).length < bpred + 1 then false else u)
          ((r :: rs).take (bpred + 1)) cache).1 with
      | fail e1 =>
        simp only [hdb] at h ⊢
        obtain rfl : e1 = e := by simpa using h
        exact ⟨by simp, trace, _, rfl, hdb⟩
      | ok ra =>
        simp only [hdb] at h ⊢
        exact ih _ _ _ _ _ _ h

/-- **C1** (amended). If any batch execution (or the prepare) fails,
`BulkInsertContext` stops immediately — the failing call is the last call
issued, so no calls are made for later batches — and returns `0` together
with the error (not the accumulated total of the earlier batches). -/
theorem bulkInsert_error_returns_zero (db : Oracle) (bulkSize : Int) (list : List Row)
    (cache : Cache) (e : Nat)
    (h : (bulkInsertContext db bulkSize list cache).err = some e) :
    (bulkInsertContext db bulkSize list cache).total = 0
    ∧ ∃ t c, (bulkInsertContext db bulkSize list cache).trace = t ++ [c]
        ∧ db c = .fail e := by
  cases list with
  | nil => simp [bulkInsertContext] at h
  | cons r0 rest =>
    simp only [bulkInsertContext] at h ⊢
    by_cases hp : 2 ≤ (r0 :: rest).length / normBulkSize bulkSize
    · rw [if_pos hp] at h ⊢
      cases hdb : db (Call.prepare (insertSql r0.tableName r0.columns
          (markInsertValueSql r0.config.Mark r0.columns.length (normBulkSize bulkSize)))) with
      | fail e1 =>
        simp only [hdb] at h ⊢
        obtain rfl : e1 = e := by simpa using h
        exact ⟨by simp, [], _, rfl, hdb⟩
      | ok ra =>
        simp only [hdb] at h ⊢
        exact bulkLoopF_err db _ _ _ _ _ _ _ _ _ _ _ h
    · rw [if_neg hp] at h ⊢
      exact bulkLoopF_err db _ _ _ _ _ _ _ _ _ _ _ h

/-- **C1** (witness for the amended theorem): two single-row batches, the
first reporting 5 affected rows, the second failing with error code 7. -/
theorem bulkInsert_error_returns_zero_witness :
    (bulkInsertContext oracleC1 1 [rowA, rowB] []).total = 0
    ∧ ∃ t c, (bulkInsertContext oracleC1 1 [rowA, rowB] []).trace = t ++ [c]
        ∧ oracleC1 c = .fail 7 :=
  bulkInsert_error_returns_zero oracleC1 1 [rowA, rowB] [] 7 (by rfl)

/-- **C1** (counterexample to the claim as stated). Two single-row batches
(`M = 2`); batch 1 reports 5 affected rows and batch 2 fails (`K = 2`), so
the claim predicts that the sum 5 is returned with the error; the code
instead returns total `0` with the error. -/
theorem bulkInsert_error_drops_partial_total :
    (bulkInsertContext oracleC1 1 [rowA, rowB] []).err = some 7
    ∧ (bulkInsertContext oracleC1 1 [rowA, rowB] []).total ≠ 5 := by
  constructor
  · rfl
  · decide

theorem normBulkSize_pos (bulkSize : Int) : 0 < normBulkSize bulkSize := by
  unfold normBulkSize
  split <;> omega

theorem chunksF_flatten {α : Type} (bpred : Nat) :
    ∀ (fuel : Nat) (l : List α), l.length ≤ fuel → (chunksF bpred fuel l).flatten = l := by
  intro fuel
  induction fuel with
  | zero =>
    intro l h
    cases l with
    | nil => rfl
    | cons a as => simp at h
  | succ fuel ih =>
    intro l h
    cases l with
    | nil => rfl
    | cons a as =>
      show (((a :: as).take (bpred + 1)) :: chunksF bpred fuel (as.drop bpred)).flatten = a :: as
      rw [List.flatten_cons]
      rw [ih (as.drop bpred) (by have hh := h; simp at hh ⊢; omega)]
      rw [List.take_succ_cons]
      simp [List.take_append_drop]

theorem chunksF_mem {α : Type} (bpred : Nat) :
    ∀ (fuel : Nat) (l : List α), l.length ≤ fuel →
      ∀ ck ∈ chunksF bpred fuel l, ck ≠ [] ∧ ck.length ≤ bpred + 1 := by
  intro fuel
  induction fuel with
  | zero =>
    intro l h ck hck
    cases l with
    | nil => simp [chunksF] at hck
    | cons a as => simp at h
  | succ fuel ih =>
    intro l h ck hck
    cases l with
    | nil => simp [chunksF] at hck
    | cons a as =>
      rw [show chunksF bpred (fuel + 1) (a :: as)
            = ((a :: as).take (bpred + 1)) :: chunksF bpred fuel (as.drop bpred) from rfl] at hck
      rcases List.mem_cons.mp hck with h1 | h1
      · subst h1
        constructor
        · simp [List.take_succ_cons]
        · rw [List.length_take]
          omega
      · exact ih (as.drop bpred) (by have hh := h; simp at hh ⊢; omega) ck h1

theorem chunksF_dropLast {α : Type} (bpred : Nat) :
    ∀ (fuel : Nat) (l : List α), l.length ≤ fuel →
      ∀ ck ∈ (chunksF bpred fuel l).dropLast, ck.length = bpred + 1 := by
  intro fuel
  induction fuel with
  | zero =>
    intro l h ck hck
    cases l with
    | nil => simp [chunksF] at hck
    | cons a as => simp at h
  | succ fuel ih =>
    intro l h ck hck
    cases l with
    | nil => simp [chunksF] at hck
    | cons a as =>
      rw [show chunksF bpred (fuel + 1) (a :: as)
            = ((a :: as).take (bpred + 1)) :: chunksF bpred fuel (as.drop bpred) from rfl] at hck
      cases hrest : chunksF bpred fuel (as.drop bpred) with
      | nil => rw [hrest] at hck; simp at hck
      | cons ck0 cks =>
        rw [hrest] at hck
        rw [List.dropLast_cons₂] at hck
        rcases List.mem_cons.mp hck with h1 | h1
        · subst h1
          have hne : as.drop bpred ≠ [] := by
            intro hnil
            rw [hnil] at hrest
            cases fuel <;> simp [chunksF] at hrest
          have hlt : bpred < as.length := by
            by_contra hge
            exact hne (List.drop_eq_nil_of_le (by omega))
          rw [List.length_take, List.length_cons]
          omega
        · rw [← hrest] at h1
          exact ih (as.drop bpred) (by have hh := h; simp at hh ⊢; omega) ck h1

theorem execBatch_fst_args (mark : Nat → Nat → Nat → String) (tn : String)
    (cols : List String) (u : Bool) (batch : List Row) (cache : Cache) :
    callArgs (execBatch mark tn cols u batch cache).1 = (batch.map Row.args).flatten := by
  cases u <;> rfl

theorem execBatch_fst_isExec (mark : Nat → Nat → Nat → String) (tn : String)
    (cols : List String) (u : Bool) (batch : List Row) (cache : Cache) :
    callIsExec (execBatch mark tn cols u batch cache).1 = true := by
  cases u <;> rfl

theorem bulkLoopF_all_ok (ra : Call → Option Int) (mark : Nat → Nat → Nat → String)
    (tn : String) (cols : List String) (bpred : Nat) :
    ∀ (fuel : Nat) (rem : List Row), rem.length ≤ fuel →
      ∀ (u : Bool) (total : Int) (cache : Cache) (trace : List Call),
      ∃ calls : List Call,
        (bulkLoopF (fun c => Resp.ok (ra c)) mark tn cols bpred fuel u rem total cache
            trace).trace = trace ++ calls
        ∧ calls.map callArgs
            = (chunksF bpred fuel rem).map (fun ck => (ck.map Row.args).flatten)
        ∧ (∀ c ∈ calls, callIsExec c = true)
        ∧ (bulkLoopF (fun c => Resp.ok (ra c)) mark tn cols bpred fuel u rem total cache
            trace).total = total + (calls.map (fun c => (ra c).getD 0)).sum
        ∧ (bulkLoopF (fun c => Resp.ok (ra c)) mark tn cols bpred fuel u rem total cache
            trace).err = none := by
  intro fuel
  induction fuel with
  | zero =>
    intro rem h u total cache trace
    cases rem with
    | nil => exact ⟨[], by simp [bulkLoopF, chunksF]⟩
    | cons a as => simp at h
  | succ fuel ih =>
    intro rem h u total cache trace
    cases rem with
    | nil => exact ⟨[], by simp [bulkLoopF, chunksF]⟩
    | cons r rs =>
      have hstep : bulkLoopF (fun c => Resp.ok (ra c)) mark tn cols bpred (fuel + 1) u
            (r :: rs) total cache trace
          = bulkLoopF (fun c => Resp.ok (ra c)) mark tn cols bpred fuel
              (if (r :: rs).length < bpred + 1 then false else u) (rs.drop bpred)
              (total + ((ra ((execBatch mark tn cols
                  (if (r :: rs).length < bpred + 1 then false else u)
                  ((r :: rs).take (bpred + 1)) cache).1)).getD 0))
              ((execBatch mark tn cols (if (r :: rs).length < bpred + 1 then false else u)
                  ((r :: rs).take (bpred + 1)) cache).2)
              (trace ++ [(execBatch mark tn cols
                  (if (r :: rs).length < bpred + 1 then false else u)
                  ((r :: rs).take (bpred + 1)) cache).1]) := rfl
      rw [hstep]
      obtain ⟨calls1, h1, h2, h3, h4, h5⟩ :=
        ih (rs.drop bpred) (by have hh := h; simp at hh ⊢; omega)
          (if (r :: rs).length < bpred + 1 then false else u)
          (total + ((ra ((execBatch mark tn cols
              (if (r :: rs).length < bpred + 1 then false else u)
              ((r :: rs).take (bpred + 1)) cache).1)).getD 0))
          ((execBatch mark tn cols (if (r :: rs).length < bpred + 1 then false else u)
              ((r :: rs).take (bpred + 1)) cache).2)
          (trace ++ [(execBatch mark tn cols
              (if (r :: rs).length < bpred + 1 then false else u)
              ((r :: rs).take (bpred + 1)) cache).1])
      refine ⟨(execBatch mark tn cols (if (r :: rs).length < bpred + 1 then false else u)
          ((r :: rs).take (bpred + 1)) cache).1 :: calls1, ?_, ?_, ?_, ?_, h5⟩
      · rw [h1]
        simp [List.append_assoc]
      · rw [show chunksF bpred (fuel + 1) (r :: rs)
              = ((r :: rs).take (bpred + 1)) :: chunksF bpred fuel (rs.drop bpred) from rfl]
        rw [List.map_cons, List.map_cons]
        rw [execBatch_fst_args, h2]
      · intro c hc
        rcases List.mem_cons.mp hc with h1c | h1c
        · subst h1c
          exact execBatch_fst_isExec mark tn cols _ _ cache
        · exact h3 c h1c
      · rw [h4]
        rw [List.map_cons, List.sum_cons]
        rw [add_assoc]

/-- **C5.** For every non-empty row list and every batch size (non-positive
coerced to 1), `BulkInsertContext` processes the list in contiguous slices
of the normalised batch size that tile the list with no gaps or overlaps
(each slice non-empty and at most batch-size long, every slice but the
last exactly batch-size long), issuing — beyond an optional initial
prepare — exactly one statement execution per slice whose parameters are
the slice's rows' `Args()` flattened in row order; when every execution
succeeds it returns no error and the total is the sum of the per-execution
reported affected-row counts, an execution with no reported count
(`RowsAffected` unavailable) contributing `0`. -/
theorem bulkInsert_batches_and_total (ra : Call → Option Int) (bulkSize : Int)
    (list : List Row) (cache : Cache) (h : list ≠ []) :
    (bulkInsertContext (fun c => Resp.ok (ra c)) bulkSize list cache).err = none
    ∧ (chunks (normBulkSize bulkSize - 1) list).flatten = list
    ∧ (∀ ck ∈ chunks (normBulkSize bulkSize - 1) list,
        ck ≠ [] ∧ ck.length ≤ normBulkSize bulkSize)
    ∧ (∀ ck ∈ (chunks (normBulkSize bulkSize - 1) list).dropLast,
        ck.length = normBulkSize bulkSize)
    ∧ ∃ pre calls,
        (bulkInsertContext (fun c => Resp.ok (ra c)) bulkSize list cache).trace = pre ++ calls
        ∧ (pre = [] ∨ ∃ s, pre = [Call.prepare s])
        ∧ calls.map callArgs
            = (chunks (normBulkSize bulkSize - 1) list).map (fun ck => (ck.map Row.args).flatten)
        ∧ (∀ c ∈ calls, callIsExec c = true)
        ∧ (bulkInsertContext (fun c => Resp.ok (ra c)) bulkSize list cache).total
            = (calls.map (fun c => (ra c).getD 0)).sum := by
  have hbs : normBulkSize bulkSize - 1 + 1 = normBulkSize bulkSize := by
    have := normBulkSize_pos bulkSize
    omega
  cases list with
  | nil => exact absurd rfl h
  | cons r0 rest =>
    have hflat : (chunks (normBulkSize bulkSize - 1) (r0 :: rest)).flatten = r0 :: rest :=
      chunksF_flatten (normBulkSize bulkSize - 1) (r0 :: rest).length (r0 :: rest) (le_refl _)
    have hmem : ∀ ck ∈ chunks (normBulkSize bulkSize - 1) (r0 :: rest),
        ck ≠ [] ∧ ck.length ≤ normBulkSize bulkSize := by
      intro ck hck
      obtain ⟨hne, hle⟩ := chunksF_mem (normBulkSize bulkSize - 1) (r0 :: rest).length
        (r0 :: rest) (le_refl _) ck hck
      exact ⟨hne, by omega⟩
    have hlast : ∀ ck ∈ (chunks (normBulkSize bulkSize - 1) (r0 :: rest)).dropLast,
        ck.length = normBulkSize bulkSize := by
      intro ck hck
      have := chunksF_dropLast (normBulkSize bulkSize - 1) (r0 :: rest).length
        (r0 :: rest) (le_refl _) ck hck
      omega
    by_cases hp : 2 ≤ (r0 :: rest).length / normBulkSize bulkSize
    · have hstep : bulkInsertContext (fun c => Resp.ok (ra c)) bulkSize (r0 :: rest) cache
          = bulkLoopF (fun c => Resp.ok (ra c)) r0.config.Mark r0.tableName r0.columns
              (normBulkSize bulkSize - 1) (r0 :: rest).length true (r0 :: rest) 0 cache
              [Call.prepare (insertSql r0.tableName r0.columns
                (markInsertValueSql r0.config.Mark r0.columns.length (normBulkSize bulkSize)))] := by
        simp only [bulkInsertContext]
        rw [if_pos hp]
      obtain ⟨calls, h1, h2, h3, h4, h5⟩ :=
        bulkLoopF_all_ok ra r0.config.Mark r0.tableName r0.columns (normBulkSize bulkSize - 1)
          (r0 :: rest).length (r0 :: rest) (le_refl _) true 0 cache
          [Call.prepare (insertSql r0.tableName r0.columns
            (markInsertValueSql r0.config.Mark r0.columns.length (normBulkSize bulkSize)))]
      refine ⟨by rw [hstep]; exact h5, hflat, hmem, hlast,
        [Call.prepare (insertSql r0.tableName r0.columns
          (markInsertValueSql r0.config.Mark r0.columns.length (normBulkSize bulkSize)))],
        calls, by rw [hstep]; exact h1, Or.inr ⟨_, rfl⟩, h2, h3, ?_⟩
      rw [hstep, h4]
      simp
    · have hstep : bulkInsertContext (fun c => Resp.ok (ra c)) bulkSize (r0 :: rest) cache
          = bulkLoopF (fun c => Resp.ok (ra c)) r0.config.Mark r0.tableName r0.columns
              (normBulkSize bulkSize - 1) (r0 :: rest).length false (r0 :: rest) 0 cache [] := by
        simp only [bulkInsertContext]
        rw [if_neg hp]
      obtain ⟨calls, h1, h2, h3, h4, h5⟩ :=
        bulkLoopF_all_ok ra r0.config.Mark r0.tableName r0.columns (normBulkSize bulkSize - 1)
          (r0 :: rest).length (r0 :: rest) (le_refl _) false 0 cache []
      refine ⟨by rw [hstep]; exact h5, hflat, hmem, hlast, [], calls,
        by rw [hstep]; exact h1, Or.inl rfl, h2, h3, ?_⟩
      rw [hstep, h4]
      simp

/-- **C5** (witness): two one-column rows inserted with batch size 2, the
handle reporting 2 affected rows on every call. -/
theorem bulkInsert_batches_and_total_witness :
    (bulkInsertContext (fun c => Resp.ok ((fun _ => some 2) c)) 2 [rowA, rowB] []).err = none
    ∧ (chunks (normBulkSize 2 - 1) [rowA, rowB]).flatten = [rowA, rowB]
    ∧ (∀ ck ∈ chunks (normBulkSize 2 - 1) [rowA, rowB],
        ck ≠ [] ∧ ck.length ≤ normBulkSize 2)
    ∧ (∀ ck ∈ (chunks (normBulkSize 2 - 1) [rowA, rowB]).dropLast,
        ck.length = normBulkSize 2)
    ∧ ∃ pre calls,
        (bulkInsertContext (fun c => Resp.ok ((fun _ => some 2) c)) 2 [rowA, rowB] []).trace
          = pre ++ calls
        ∧ (pre = [] ∨ ∃ s, pre = [Call.prepare s])
        ∧ calls.map callArgs
            = (chunks (normBulkSize 2 - 1) [rowA, rowB]).map
                (fun ck => (ck.map Row.args).flatten)
        ∧ (∀ c ∈ calls, callIsExec c = true)
        ∧ (bulkInsertContext (fun c => Resp.ok ((fun _ => some 2) c)) 2 [rowA, rowB] []).total
            = (calls.map (fun c => (((fun _ => some 2) c : Option Int)).getD 0)).sum :=
  bulkInsert_batches_and_total (fun _ => some 2) 2 [rowA, rowB] []
    (List.cons_ne_nil _ _)

theorem execBatch_args_congr (mark : Nat → Nat → Nat → String) (tn : String)
    (cols : List String) (u : Bool) (batch batch' : List Row) (cache : Cache)
    (hargs : batch.map Row.args = batch'.map Row.args) :
    execBatch mark tn cols u batch cache = execBatch mark tn cols u batch' cache := by
  have hlen : batch.length = batch'.length := by
    have := congrArg List.length hargs
    simpa using this
  cases u <;> simp [execBatch, hargs, hlen]

theorem bulkLoopF_args_only (db : Oracle) (mark : Nat → Nat → Nat → String) (tn : String)
    (cols : List String) (bpred : Nat) :
    ∀ (fuel : Nat) (rem rem' : List Row), rem.map Row.args = rem'.map Row.args →
      ∀ (u : Bool) (total : Int) (cache : Cache) (trace : List Call),
        bulkLoopF db mark tn cols bpred fuel u rem total cache trace
          = bulkLoopF db mark tn cols bpred fuel u rem' total cache trace := by
  intro fuel
  induction fuel with
  | zero =>
    intro rem rem' hargs u total cache trace
    cases rem with
    | nil =>
      cases rem' with
      | nil => rfl
      | cons b bs => simp at hargs
    | cons a as =>
      cases rem' with
      | nil => simp at hargs
      | cons b bs => rfl
  | succ fuel ih =>
    intro rem rem' hargs u total cache trace
    cases rem with
    | nil =>
      cases rem' with
      | nil => rfl
      | cons b bs => simp at hargs
    | cons a as =>
      cases rem' with
      | nil => simp at hargs
      | cons b bs =>
        simp only [List.map_cons, List.cons.injEq] at hargs
        obtain ⟨h0, htl⟩ := hargs
        have hlen : (b :: bs).length = (a :: as).length := by
          have := congrArg List.length htl
          simp only [List.length_map] at this
          simp [this]
        have hbatch : ((a :: as).take (bpred + 1)).map Row.args
            = ((b :: bs).take (bpred + 1)).map Row.args := by
          simp [List.map_take, h0, htl]
        have hdrop : (as.drop bpred).map Row.args = (bs.drop bpred).map Row.args := by
          simp [List.map_drop, htl]
        have hexec : execBatch mark tn cols (if (a :: as).length < bpred + 1 then false else u)
              ((a :: as).take (bpred + 1)) cache
            = execBatch mark tn cols (if (b :: bs).length < bpred + 1 then false else u)
              ((b :: bs).take (bpred + 1)) cache := by
          rw [hlen]
          exact execBatch_args_congr mark tn cols _ _ _ cache hbatch
        cases hdbA : db (execBatch mark tn cols
            (if (a :: as).length < bpred + 1 then false else u)
            ((a :: as).take (bpred + 1)) cache).1 with
        | fail e =>
          have hdbB : db (execBatch mark tn cols
              (if (b :: bs).length < bpred + 1 then false else u)
              ((b :: bs).take (bpred + 1)) cache).1 = .fail e := by
            rw [← hexec]
            exact hdbA
          simp only [bulkLoopF, hdbA, hdbB]
          rw [hexec]
        | ok ra =>
          have hdbB : db (execBatch mark tn cols
              (if (b :: bs).length < bpred + 1 then false else u)
              ((b :: bs).take (bpred + 1)) cache).1 = .ok ra := by
            rw [← hexec]
            exact hdbA
          simp only [bulkLoopF, hdbA, hdbB]
          rw [hexec, hlen]
          exact ih (as.drop bpred) (bs.drop bpred) hdrop _ _ _ _

/-- **C10.** `BulkInsertContext` derives the table name, column list and
configuration solely from the first element of the row list; every other
element contributes only its `Args()`.  Two non-empty row lists whose
heads agree on table name, columns and config and whose elements have
pairwise equal `Args()` produce identical results — same issued calls,
same cache, same total, same error — even when the later elements declare
different table names or columns. -/
theorem bulkInsert_head_determines_shape (db : Oracle) (bulkSize : Int) (cache : Cache)
    (r r' : Row) (rs rs' : List Row)
    (ht : r.tableName = r'.tableName) (hc : r.columns = r'.columns)
    (hcfg : r.config = r'.config)
    (ha : (r :: rs).map Row.args = (r' :: rs').map Row.args) :
    bulkInsertContext db bulkSize (r :: rs) cache
      = bulkInsertContext db bulkSize (r' :: rs') cache := by
  have hlen : (r' :: rs').length = (r :: rs).length := by
    have := congrArg List.length ha
    simpa using this.symm
  simp only [bulkInsertContext]
  rw [← ht, ← hc, ← hcfg, hlen]
  by_cases hp : 2 ≤ (r :: rs).length / normBulkSize bulkSize
  · simp only [if_pos hp]
    cases hdb : db (Call.prepare (insertSql r.tableName r.columns
        (markInsertValueSql r.config.Mark r.columns.length (normBulkSize bulkSize)))) with
    | fail e =>
      simp only [hdb]
    | ok ra =>
      simp only [hdb]
      exact bulkLoopF_args_only db r.config.Mark r.tableName r.columns _ _ _ _ ha _ _ _ _
  · simp only [if_neg hp]
    exact bulkLoopF_args_only db r.config.Mark r.tableName r.columns _ _ _ _ ha _ _ _ _

/-- **C10** (witness): replacing the second row by one with a different
declared table name (`other`) and column list (`nope`) but the same
argument token leaves the entire result — calls, SQL texts, cache, total —
unchanged: the second row is silently executed under the first row's SQL
shape. -/
theorem bulkInsert_head_determines_shape_witness :
    bulkInsertContext oracleOk1 1 [rowA, rowB] []
      = bulkInsertContext oracleOk1 1 [rowA, rowB2] [] :=
  bulkInsert_head_determines_shape oracleOk1 1 [] rowA rowA [rowB] [rowB2] rfl rfl rfl rfl

end Dbh
